import Mathlib

/-!
Verification of the compas_fea2 entity-registry, grouping and serialization
subsystems against their natural-language specification.

The development shallowly embeds two generations of the registry that coexist
in the repository:

* the legacy registry, `compas_fea2.backends._base.model.parts.PartBase`
  (prefix `l` below): nodes are kept in an insertion-ordered list, keys are
  dense integers assigned at insertion time and re-compacted on removal;

* the current registry, `compas_fea2.model.parts._Part` (prefix `c` /
  structures `CPart`, `CNode`, ...): nodes are kept in a set, deduplication is
  driven by the process-wide configuration flags `VERBOSE`, `POINT_OVERLAP`
  and `GLOBAL_TOLERANCE` defined in `compas_fea2/__init__.py`.

The Abaqus serializer (`compas_fea2.backends.abaqus.model.parts.AbaqusPart`,
prefix `A`) is embedded as a chunk-emitting function; `renderChunk` renders
each emitted fragment to the text actually produced.

Python floats are modelled as integers (`Int`): none of the verified
properties depends on fractional values, and the comparisons involved
(`<` on squared distances, equality of joined orientation strings) are
exact in the source as well.  Python object identity is modelled by a
`pyId : Nat` field; Python `set`/`dict` collections over objects are
modelled as lists without duplicate ids, with a fixed iteration order.
-/

/-! ### Legacy registry: `PartBase` (backends/_base/model/parts.py) -/

/-- Modelled from the spec: the legacy `NodeBase`
(`compas_fea2/backends/_base/model/nodes.py`) is not among the sources; per
§3 a node carries a geometric key, a label and a mutable dense integer key
assigned at insertion time. -/
structure LNode where
  gkey : String
  label : String
  key : Nat
deriving DecidableEq

/-- Node-related state of a legacy `PartBase`: `_nodes` (insertion-ordered
list) and `_nodes_gkeys` (parallel list of geometric keys). -/
structure LPartN where
  nodes : List LNode
  gkeys : List String
deriving DecidableEq

/-- `PartBase.check_node_in_part`: indices of all entries of `_nodes_gkeys`
equal to the candidate node's geometric key. -/
def lCheckNodeInPart (p : LPartN) (g : String) : List Nat :=
  ((p.gkeys.enum).filter (fun x => x.2 = g)).map (fun x => x.1)

/-- `PartBase.add_node`: skip when `check` holds and a node with the same
geometric key is present (truthy index list); otherwise assign key
`len(nodes)`, default the label to `n-<key>` when empty, and append the node
and its geometric key. -/
def lAddNode (p : LPartN) (g lbl : String) (check : Bool) : LPartN :=
  if check && !(lCheckNodeInPart p g).isEmpty then p
  else
    let k := p.nodes.length
    let lbl' := if lbl = "" then "n-" ++ toString k else lbl
    { nodes := p.nodes ++ [{ gkey := g, label := lbl', key := k }],
      gkeys := p.gkeys ++ [g] }

/-- `PartBase._reorder_nodes`: walk the node list assigning consecutive keys
starting at 0, refreshing auto-generated labels (prefixed by `n-`). -/
def lReorderNodes (ns : List LNode) : List LNode :=
  ns.enum.map (fun x =>
    { x.2 with
      key := x.1
      label := if x.2.label.startsWith "n-" then "n-" ++ toString x.1 else x.2.label })

/-- `PartBase.remove_node`: delete the node and its geometric key at the
given position, then `_reorder_nodes`.  Modelled from the spec: the source
reads the gkey list through `self.nodes_gkeys`, an attribute the base class
`FEABase` (not among the sources) must resolve to `_nodes_gkeys` for the
documented removal/renumbering behaviour (§4.3) to complete; an out-of-range
index fails the call before any mutation (Python `IndexError` on the first
`del`), leaving the part unchanged. -/
def lRemoveNode (p : LPartN) (k : Nat) : LPartN :=
  if k < p.nodes.length then
    { nodes := lReorderNodes (p.nodes.eraseIdx k), gkeys := p.gkeys.eraseIdx k }
  else p

/-- A call in an externally-observable `add_node` / `remove_node` sequence. -/
inductive LOp where
  | add (g lbl : String) (check : Bool)
  | remove (k : Nat)

/-- Apply one registry call to legacy node state. -/
def lApply (p : LPartN) : LOp → LPartN
  | .add g lbl check => lAddNode p g lbl check
  | .remove k => lRemoveNode p k

/-- Run a sequence of registry calls from a freshly constructed part
(`PartBase.__init__`: empty node and gkey lists). -/
def lRun (ops : List LOp) : LPartN :=
  ops.foldl lApply { nodes := [], gkeys := [] }

/-- Modelled from the spec: the legacy `ElementBase` is not among the
sources; per §3 an element carries an ordered connectivity (node keys), a
type tag, a section name, an optional orientation, an optional elset name,
and a mutable integer key.  `connectivity_key` (used for duplicate
suppression) is modelled by comparing connectivities directly. -/
structure LElem where
  connectivity : List Nat
  eltype : String
  sec : String
  orientation : Option String
  elset : Option String
  key : Nat
deriving DecidableEq

/-- Append a value to the entry of an association list, creating the entry
when absent (Python `dict.setdefault(k, []).append(v)` pattern). -/
def assocAppend {γ : Type} (l : List (String × List γ)) (k : String) (v : γ) :
    List (String × List γ) :=
  if l.any (fun kv => kv.1 = k) then
    l.map (fun kv => if kv.1 = k then (kv.1, kv.2 ++ [v]) else kv)
  else l ++ [(k, [v])]

/-- Element-related state of a legacy `PartBase`. -/
structure LPartE where
  nodes : List LNode
  elements : List LElem
  byType : List (String × List Nat)
  bySec : List (String × List Nat)
  orientBySec : List (String × List (Option String))
  byElset : List (String × List Nat)
  elsets : List (String × List Nat)
deriving DecidableEq

/-- `PartBase.check_element_in_part`: keys of elements with identical
connectivity. -/
def lCheckElementInPart (p : LPartE) (e : LElem) : List Nat :=
  (p.elements.filter (fun x => x.connectivity = e.connectivity)).map (fun x => x.key)

/-- `PartBase.add_elements_to_set`: append keys to the named elset,
skipping keys already selected. -/
def lAddElementsToSet (sets : List (String × List Nat)) (nm : String) (ks : List Nat) :
    List (String × List Nat) :=
  sets.map (fun s =>
    if s.1 = nm then (s.1, s.2 ++ ks.filter (fun k => !s.2.contains k)) else s)

/-- `PartBase.add_element`: skip silently on duplicate connectivity when
`check` holds; otherwise assign key `len(elements)` and validate every
connectivity index against the registered node keys, raising `ValueError`
(before any part mutation) when one is missing; on success append the element
and update the type / section / orientation / elset indexes. -/
def lAddElement (p : LPartE) (e : LElem) (check : Bool) : Except String LPartE :=
  if check && !(lCheckElementInPart p e).isEmpty then .ok p
  else
    let e' := { e with key := p.elements.length }
    if e.connectivity.any (fun c => !(p.nodes.map (fun n => n.key)).contains c) then
      .error "ERROR CREATING ELEMENT: node not found"
    else
      let p1 := { p with
        elements := p.elements ++ [e']
        byType := assocAppend p.byType e.eltype e'.key
        bySec := assocAppend p.bySec e.sec e'.key
        orientBySec :=
          if (p.orientBySec.any (fun kv => kv.1 = e.sec)) then
            if ((p.orientBySec.filter (fun kv => kv.1 = e.sec)).any
                (fun kv => kv.2.contains e.orientation)) then
              p.orientBySec
            else
              p.orientBySec.map (fun kv =>
                if kv.1 = e.sec then (kv.1, kv.2 ++ [e.orientation]) else kv)
          else p.orientBySec ++ [(e.sec, [e.orientation])] }
      match e.elset with
      | none => .ok p1
      | some nm =>
        let p2 :=
          if p1.byElset.any (fun kv => kv.1 = nm) then p1
          else { p1 with elsets := p1.elsets ++ [(nm, [])],
                         byElset := p1.byElset ++ [(nm, [])] }
        let p3 := { p2 with byElset := assocAppend p2.byElset nm e'.key }
        .ok { p3 with elsets := lAddElementsToSet p3.elsets nm [e'.key] }

/-- A legacy section's material reference: either a registered-material name
(string) or a material instance carrying a name
(`PartBase.add_section` distinguishes the two but resolves both by name). -/
inductive LMatRef where
  | byStr (s : String)
  | inst (name : String)
deriving DecidableEq

/-- Section/material state of a legacy `PartBase`: `_materials` is a dict
keyed by material name, `_sections` a dict keyed by section name. -/
structure LPartS where
  materials : List String
  sections : List (String × LMatRef)
deriving DecidableEq

/-- `PartBase.add_section`: skip when the section name is already present;
otherwise resolve the material by name (string reference or instance name)
in `_materials`, raising `ValueError` when unresolvable, and register the
section under its name. -/
def lAddSection (p : LPartS) (name : String) (mat : LMatRef) : Except String LPartS :=
  if (p.sections.map (fun s => s.1)).contains name then .ok p
  else
    match mat with
    | .byStr s =>
      if !(p.materials.contains s) then .error "ERROR: material not found in the Part!"
      else .ok { p with sections := p.sections ++ [(name, mat)] }
    | .inst n =>
      if !(p.materials.contains n) then .error "ERROR: material not found in the Part!"
      else .ok { p with sections := p.sections ++ [(name, mat)] }

/-! ### Current registry: `_Part` (compas_fea2/model/parts.py) -/

/-- A value loaded from the process environment (`compas_fea2/__init__.py`
reads `GLOBAL_TOLERANCE` with `os.getenv`, which yields a string; Python only
turns it into a number if converted explicitly). -/
inductive PyVal where
  | num (n : Int)
  | str (s : String)
deriving DecidableEq

/-- Python exceptions surfaced by the embedded operations. -/
inductive PyErr where
  | typeError
  | valueError (msg : String)
  | attributeError (msg : String)
deriving DecidableEq

/-- The process-wide configuration consulted by `_Part.add_node`
(`compas_fea2.VERBOSE`, `compas_fea2.POINT_OVERLAP`,
`compas_fea2.GLOBAL_TOLERANCE`). -/
structure Config where
  verbose : Bool
  point_overlap : Bool
  global_tolerance : PyVal
deriving DecidableEq

/-- A material of the current generation (`_Material`): identity plus name. -/
structure CMaterial where
  pyId : Nat
  name : String
  key : Option Nat
deriving DecidableEq

/-- A section of the current generation (`_Section`): references exactly one
material. -/
structure CSection where
  pyId : Nat
  name : String
  material : CMaterial
  key : Option Nat
deriving DecidableEq

/-- A node of the current generation (`model/nodes.py` `Node`): coordinates,
a key that stays unassigned (`None`) until `assign_keys` runs, the owning
part (`_registration`) and the connected-element back-reference set. -/
structure CNode where
  pyId : Nat
  x : Int
  y : Int
  z : Int
  key : Option Nat
  registration : Option Nat
  connectedElems : List Nat
deriving DecidableEq

/-- `Node.xyz`. -/
def CNode.xyz (n : CNode) : Int × Int × Int := (n.x, n.y, n.z)

/-- `Node.gkey`: the canonical geometric key derived from the coordinates
(`compas` `geometric_key`; on integral coordinates the quantization is the
identity, so the rendered coordinate triple is faithful). -/
def CNode.gkey (n : CNode) : String :=
  toString n.x ++ "," ++ toString n.y ++ "," ++ toString n.z

/-- An element of the current generation (`_Element`): ordered node list and
a section. -/
structure CElem where
  pyId : Nat
  nodes : List CNode
  sec : CSection
  key : Option Nat
deriving DecidableEq

/-- State of a current-generation `_Part`: `_nodes` (a set), `_gkey_node`
(dict geometric key → node), `_elements`, `_sections`, `_materials`. -/
structure CPart where
  pid : Nat
  nodes : List CNode
  gkeyNode : List (String × Nat)
  elements : List CElem
  sections : List CSection
  materials : List CMaterial
deriving DecidableEq

/-- `compas.geometry.distance_point_point_sqrd`. -/
def distSqrd (a b : Int × Int × Int) : Int :=
  (a.1 - b.1) ^ 2 + (a.2.1 - b.2.1) ^ 2 + (a.2.2 - b.2.2) ^ 2

/-- `_Part.find_nodes_around_point` on the default arguments used by
`add_node` (no plane, no report, not single): first squares the distance
(`d2 = distance**2`, a `TypeError` when the tolerance is the raw environment
string), then filters the nodes with squared distance strictly below it. -/
def findNodesAroundPoint (nodes : List CNode) (point : Int × Int × Int)
    (distance : PyVal) : Except PyErr (List CNode) :=
  match distance with
  | .str _ => .error .typeError
  | .num d => .ok (nodes.filter (fun n => distSqrd n.xyz point < d * d))

/-- `_Part.contains_node`: membership of the node object (identity) in the
`_nodes` set. -/
def containsNode (p : CPart) (n : CNode) : Bool :=
  p.nodes.any (fun m => m.pyId = n.pyId)

/-- Update-or-insert on the `_gkey_node` dict. -/
def assocSet (l : List (String × Nat)) (k : String) (v : Nat) : List (String × Nat) :=
  if l.any (fun kv => kv.1 = k) then
    l.map (fun kv => if kv.1 = k then (kv.1, v) else kv)
  else l ++ [(k, v)]

/-- The registering tail of `_Part.add_node`: `self._nodes.add(node)` (a set
add, a no-op on an already-present object), `self._gkey_node[node.gkey] =
node`, `node._registration = self`.  (The preceding `self._key =
len(self.model.nodes)` touches only the part's own key and is outside the
claims.) -/
def registerNode (p : CPart) (node : CNode) : CNode × CPart :=
  let node' := { node with registration := some p.pid }
  let nodes' :=
    if containsNode p node then
      p.nodes.map (fun m => if m.pyId = node.pyId then node' else m)
    else p.nodes ++ [node']
  (node', { p with nodes := nodes', gkeyNode := assocSet p.gkeyNode node.gkey node.pyId })

/-- `_Part.add_node`: when `VERBOSE` is set the function returns the incoming
node immediately (the `return node` sits inside the `if compas_fea2.VERBOSE`
block, before any registration); when `POINT_OVERLAP` is unset it searches
for nodes within `GLOBAL_TOLERANCE` of the new node and returns the first
hit; otherwise it registers the node. -/
def addNode (cfg : Config) (p : CPart) (node : CNode) : Except PyErr (CNode × CPart) :=
  if cfg.verbose then .ok (node, p)
  else if !cfg.point_overlap then
    match findNodesAroundPoint p.nodes node.xyz cfg.global_tolerance with
    | .error e => .error e
    | .ok existing =>
      match existing with
      | e :: _ => .ok (e, p)
      | [] => .ok (registerNode p node)
  else .ok (registerNode p node)

/-- `_Part.add_nodes` as used by `add_element` (element-wise `add_node`,
threading the part state; the per-node results are discarded there). -/
def addNodesList (cfg : Config) (p : CPart) : List CNode → Except PyErr CPart
  | [] => .ok p
  | n :: rest =>
    match addNode cfg p n with
    | .error e => .error e
    | .ok (_, p') => addNodesList cfg p' rest

/-- The back-reference update in `_Part.add_element`: each of the element's
node objects gains the element in its `connected_elements` set (a set add;
only node objects actually registered in the part are observable through
it). -/
def addBackRefs (p : CPart) (e : CElem) : CPart :=
  { p with nodes := p.nodes.map (fun m =>
      if e.nodes.any (fun n => n.pyId = m.pyId) then
        if m.connectedElems.contains e.pyId then m
        else { m with connectedElems := m.connectedElems ++ [e.pyId] }
      else m) }

/-- `_Part.add_material`: unconditional set add plus registration. -/
def addMaterial (p : CPart) (m : CMaterial) : CPart :=
  { p with materials :=
      if p.materials.any (fun x => x.pyId = m.pyId) then p.materials
      else p.materials ++ [m] }

/-- `_Part.add_section`: registers the section's material via `add_material`,
then set-adds the section.  No check of any kind is performed on the
material. -/
def addSection (p : CPart) (s : CSection) : CPart :=
  let p' := addMaterial p s.material
  { p' with sections :=
      if p'.sections.any (fun x => x.pyId = s.pyId) then p'.sections
      else p'.sections ++ [s] }

/-- `_Part.contains_element`. -/
def containsElement (p : CPart) (e : CElem) : Bool :=
  p.elements.any (fun x => x.pyId = e.pyId)

/-- `_Part.add_element`: with `checks` enabled only a non-element input or an
already-contained element is skipped; otherwise the element's nodes are
passed to `add_nodes`, back-references are updated, the section (and
transitively its material) is added, and the element is set-added.  There is
no connectivity validation. -/
def addElement (cfg : Config) (p : CPart) (e : CElem) (checks : Bool) :
    Except PyErr (CElem × CPart) :=
  if checks && containsElement p e then .ok (e, p)
  else
    match addNodesList cfg p e.nodes with
    | .error err => .error err
    | .ok p1 =>
      let p2 := addBackRefs p1 e
      let p3 := addSection p2 e.sec
      .ok (e, { p3 with elements :=
        if containsElement p3 e then p3.elements else p3.elements ++ [e] })

/-- `_Part.remove_node`: when the node is contained, discard it from the
`_nodes` set and pop its geometric key from `_gkey_node`; no other node is
touched and no key is reassigned. -/
def removeNode (p : CPart) (n : CNode) : CPart :=
  if containsNode p n then
    { p with nodes := p.nodes.filter (fun m => m.pyId ≠ n.pyId),
             gkeyNode := p.gkeyNode.filter (fun kv => kv.1 ≠ n.gkey) }
  else p

/-- `_Part.assign_keys`: enumerate the node, element, section and material
collections from `start` (default 1) and store the counter as each entity's
key. -/
def assignKeys (p : CPart) (start : Nat) : CPart :=
  { p with
    nodes := p.nodes.enum.map (fun x => { x.2 with key := some (start + x.1) })
    elements := p.elements.enum.map (fun x => { x.2 with key := some (start + x.1) })
    sections := p.sections.enum.map (fun x => { x.2 with key := some (start + x.1) })
    materials := p.materials.enum.map (fun x => { x.2 with key := some (start + x.1) }) }

/-- A throwaway node for modelling Python list indexing (`list(self.nodes)[i]`
is always called with an in-range index). -/
def dummyNode : CNode :=
  { pyId := 0, x := 0, y := 0, z := 0, key := none, registration := none,
    connectedElems := [] }

/-- Insertion step of the exact nearest-first ordering used to model
`scipy.spatial.KDTree.query` (scipy's query is exact). -/
def insertByDist (d : Nat × Int) : List (Nat × Int) → List (Nat × Int)
  | [] => [d]
  | x :: xs => if d.2 < x.2 then d :: x :: xs else x :: insertByDist d xs

/-- Exact nearest-first ordering of (index, squared distance) pairs. -/
def sortByDist : List (Nat × Int) → List (Nat × Int)
  | [] => []
  | x :: xs => insertByDist x (sortByDist xs)

/-- `_Part.find_closest_nodes_to_point`: raise `ValueError` when
`number_of_nodes <= 0` or when it exceeds `len(self.nodes)`; otherwise query
the KD-tree built on `self.points` for the `k` nearest indices (modelled as
the first `k` indices in exact nearest-first order) and return the
corresponding nodes. -/
def findClosestNodesToPoint (p : CPart) (point : Int × Int × Int) (k : Int) :
    Except PyErr (List CNode) :=
  if k ≤ 0 then
    .error (.valueError "The number of nodes to find must be greater than 0.")
  else if k > (p.nodes.length : Int) then
    .error (.valueError "The number of nodes to find exceeds the available nodes.")
  else
    let dists := p.nodes.enum.map (fun x => (x.1, distSqrd x.2.xyz point))
    let idxs := ((sortByDist dists).take k.toNat).map (fun d => d.1)
    .ok (idxs.map (fun i => p.nodes.getD i dummyNode))

/-! ### Abaqus serializer: `AbaqusPart` (backends/abaqus/model/parts.py)

The serializer runs over a part whose entities already carry integer keys.
The class it extends, `compas_fea2.model.Part`, is not among the sources
(`compas_fea2/model/__init__.py` is absent); per §4.3/§4.5 the node
collection it reads is modelled as the registry's insertion-ordered list. -/

/-- A serializer-facing node: an assigned integer key plus coordinates. -/
structure ANode where
  key : Nat
  x : Int
  y : Int
  z : Int
deriving DecidableEq

/-- A serializer-facing section (identity plus name). -/
structure ASection where
  pyId : Nat
  name : String
deriving DecidableEq

/-- A serializer-facing element whose two attribute accesses in
`_group_elements` succeed: key, type tag (`_eltype`, present), section, the
optional `_orientation` attribute (`none` models a class without the
attribute; components are modelled as integers) and the referenced nodes.
An element whose `_orientation` attribute exists but holds `None`
(`AbaqusTrussElement`), or which lacks `_eltype` (`AbaqusMassElement`), is
not representable here: those raw shapes are `AElemR` below, on which the
grouping engine (`groupElementsR`) raises before producing any bucket. -/
structure AElem where
  pyId : Nat
  key : Nat
  eltype : String
  sec : ASection
  orientation : Option (List Int)
  nodes : List ANode
deriving DecidableEq

/-- An `ElementsGroup` as stored in the part's group collection. -/
structure AGroup where
  pyId : Nat
  name : String
  elems : List AElem
deriving DecidableEq

/-- The part state read and written by `AbaqusPart._generate_jobdata`. -/
structure APart where
  name : String
  nodes : List ANode
  elements : List AElem
  sections : List ASection
  materials : List String
  groups : List AGroup
  releases : List String
  freshId : Nat
deriving DecidableEq

/-- The orientation bucket key of `AbaqusPart._group_elements`:
`'_'.join(str(i) for i in x._orientation)` when the `_orientation` attribute
exists and holds a vector, `None` when the attribute is absent.  The third
shape of the source — attribute present with value `None` — makes the join a
`TypeError` and is modelled in `groupElementsR` over raw elements. -/
def okeyOf (e : AElem) : Option String :=
  e.orientation.map (fun o => String.intercalate "_" (o.map toString))

/-- First grouping level of `_group_elements`: the set of `_eltype` values,
each with the elements of that type. -/
def groupByType (es : List AElem) : List (String × List AElem) :=
  ((es.map (fun e => e.eltype)).dedup).map
    (fun t => (t, es.filter (fun e => e.eltype = t)))

/-- Second grouping level: the set of sections of a type bucket, each with
its elements (`==` on section objects is identity). -/
def groupBySec (es : List AElem) : List (ASection × List AElem) :=
  ((es.map (fun e => e.sec)).dedup).map
    (fun s => (s, es.filter (fun e => e.sec = s)))

/-- Third grouping level: the set of orientation keys of a (type, section)
bucket, each with the elements whose key matches (elements without the
attribute land in the `None` bucket). -/
def groupByOrientation (es : List AElem) : List (Option String × List AElem) :=
  ((es.map okeyOf).dedup).map
    (fun o => (o, es.filter (fun e => okeyOf e = o)))

/-- `AbaqusPart._group_elements`: the nested
type → section → orientation-bucket partition. -/
def groupElements (es : List AElem) :
    List (String × List (ASection × List (Option String × List AElem))) :=
  (groupByType es).map (fun ts =>
    (ts.1, (groupBySec ts.2).map (fun ss => (ss.1, groupByOrientation ss.2))))

/-- The flattened bucket sequence, in the nested iteration order of
`_generate_jobdata`'s three loops. -/
def flatBuckets (es : List AElem) :
    List (String × ASection × Option String × List AElem) :=
  (groupElements es).flatMap (fun ts =>
    ts.2.flatMap (fun ss => ss.2.map (fun os => (ts.1, ss.1, os.1, os.2))))

/-- One fragment appended to `part_data` by `_generate_jobdata`. -/
inductive Chunk where
  | partHeader (name : String)
  | nodeHeader
  | nodeLine (n : ANode)
  | elemHeader (eltype : String)
  | elemLine (e : AElem)
  | elsetData (g : AGroup)
  | sectionData (s : ASection) (elset : String) (orientation : Option String)
  | groupData (g : AGroup)
  | releaseHeader
  | releaseData (r : String)
  | endPart
deriving DecidableEq

/-- The text of one fragment.  `elemLine` is
`backends/abaqus/model/elements.py` `_generate_jobdata`:
`'{0}, {1}\n'.format(element.key+1, ','.join(str(node.key+1) for node in
element.nodes))`.  The node line is modelled from the spec (§6, the Abaqus
node renderer is not among the sources): `<1-based key>, <x>, <y>, <z>`.
The elset, section, group and release fragments are likewise modelled from
the spec (their renderers are not among the sources); only their distinctness
from node and element fragments matters to the claims. -/
def renderChunk : Chunk → String
  | .partHeader n => "*Part, name=" ++ n ++ "\n"
  | .nodeHeader => "*Node\n"
  | .nodeLine n =>
      toString (n.key + 1) ++ ", " ++ toString n.x ++ ", " ++
        toString n.y ++ ", " ++ toString n.z ++ "\n"
  | .elemHeader t => "*Element, type=" ++ t ++ "\n"
  | .elemLine e =>
      toString (e.key + 1) ++ ", " ++
        String.intercalate "," (e.nodes.map (fun n => toString (n.key + 1))) ++ "\n"
  | .elsetData g =>
      "*Elset, elset=" ++ g.name ++ "\n" ++
        String.intercalate ", " (g.elems.map (fun e => toString (e.key + 1))) ++ "\n"
  | .sectionData s elset o =>
      "*Section: " ++ s.name ++ ", elset=" ++ elset ++
        (match o with
         | some k => ", orientation=" ++ k
         | none => "") ++ "\n"
  | .groupData g =>
      "*Elset, elset=" ++ g.name ++ "\n" ++
        String.intercalate ", " (g.elems.map (fun e => toString (e.key + 1))) ++ "\n"
  | .releaseHeader => "\n*Release\n"
  | .releaseData r => r ++ "\n"
  | .endPart => "*End Part\n**\n"

/-- The auxiliary elset name synthesized per bucket
(`aux_<type>_<section>` or `aux_<type>_<section>_<orientation>`; the
`.replace('.', '')` of the source is the identity here because integral
orientation components render without dots). -/
def auxName (t : String) (s : ASection) (o : Option String) : String :=
  match o with
  | some k => "aux_" ++ t ++ "_" ++ s.name ++ "_" ++ k
  | none => "aux_" ++ t ++ "_" ++ s.name

/-- `_Part.contains_group` for an `ElementsGroup` (object identity). -/
def containsGroup (p : APart) (g : AGroup) : Bool :=
  p.groups.any (fun h => h.pyId = g.pyId)

/-- `_Part.add_group` as invoked by the serializer on a synthesized
`ElementsGroup`: the initial `add_elements(group.elements)` only hits the
duplicate-skip branch (every member is one of the part's registered
elements), the `contains_group` test compares object identity, and the group
is added to the part's group collection. -/
def addGroup (p : APart) (g : AGroup) : APart :=
  if containsGroup p g then p else { p with groups := p.groups ++ [g] }

/-- The element-block loop of `_generate_jobdata` over the flattened
buckets: per bucket emit the `*Element` header, one connectivity line per
element, then synthesize the auxiliary `ElementsGroup` (a fresh Python
object: its identity is the next allocator id), `add_group` it, and emit its
elset data followed by the section assignment. -/
def emitBuckets (p : APart) :
    List (String × ASection × Option String × List AElem) → List Chunk × APart
  | [] => ([], p)
  | (t, s, o, els) :: rest =>
    let g : AGroup := { pyId := p.freshId, name := auxName t s o, elems := els }
    let p1 := addGroup { p with freshId := p.freshId + 1 } g
    let head := Chunk.elemHeader t :: els.map Chunk.elemLine ++
      [Chunk.elsetData g, Chunk.sectionData s (auxName t s o) o]
    let done := emitBuckets p1 rest
    (head ++ done.1, done.2)

/-- `AbaqusPart._generate_jobdata` as the fragment sequence it joins,
threading the part state (the group additions happen on `self`): the part
header, the node block (`*Node` then one line per node), the element blocks
from `_group_elements`, the group fragments (read after the auxiliary
additions), the release block when releases exist, and the part footer. -/
def generateJobdata (p : APart) : List Chunk × APart :=
  let elemPart := emitBuckets p (flatBuckets p.elements)
  (Chunk.partHeader p.name :: Chunk.nodeHeader :: p.nodes.map Chunk.nodeLine ++
    elemPart.1 ++ elemPart.2.groups.map Chunk.groupData ++
    (if p.releases.isEmpty then []
     else Chunk.releaseHeader :: p.releases.map Chunk.releaseData) ++
    [Chunk.endPart],
   elemPart.2)

/-- The rendered job-data text (`''.join(part_data)` wrapped between the
part header and footer). -/
def generateJobdataText (p : APart) : String × APart :=
  let cs := generateJobdata p
  (String.join (cs.1.map renderChunk), cs.2)

/-- The connectivity line as the spec words it: a 1-based element key
followed by the 1-based node keys, comma-separated.  (Spec-side definition
for the refinement claim about `elements.py:_generate_jobdata`; it takes the
already-shifted keys.) -/
def specConnectivityLine (ekey : Nat) (nkeys : List Nat) : String :=
  toString ekey ++ ", " ++ String.intercalate "," (nkeys.map toString) ++ "\n"

/-- The (type, section, orientation-key) tuple of an element. -/
def tripleOf (e : AElem) : String × ASection × Option String :=
  (e.eltype, e.sec, okeyOf e)

/-- Recognizes an element-declaration header fragment. -/
def isElemHeader : Chunk → Bool
  | .elemHeader _ => true
  | _ => false

/-- Recognizes a fragment of the node block. -/
def isNodeChunk : Chunk → Bool
  | .nodeHeader => true
  | .nodeLine _ => true
  | _ => false

/-- The auxiliary groups synthesized by the element-block loop, given the
allocator's next id. -/
def auxGroupsFrom (fid : Nat) :
    List (String × ASection × Option String × List AElem) → List AGroup
  | [] => []
  | (t, s, o, els) :: rest =>
    { pyId := fid, name := auxName t s o, elems := els } :: auxGroupsFrom (fid + 1) rest

/-! ### Concrete instances used by counterexamples and witnesses -/

/-- The configuration with `VERBOSE` and `POINT_OVERLAP` unset, as read from
the environment: `GLOBAL_TOLERANCE` is the raw string `os.getenv` returns. -/
def cfgEnvStr : Config :=
  { verbose := false, point_overlap := false, global_tolerance := .str "0.01" }

/-- A configuration with overlap allowed (`POINT_OVERLAP` set), bypassing the
tolerance lookup. -/
def cfgOverlap : Config :=
  { verbose := false, point_overlap := true, global_tolerance := .str "0.01" }

/-- A configuration with the dedup path enabled and the tolerance as the
number the specification intends. -/
def cfgDedup : Config :=
  { verbose := false, point_overlap := false, global_tolerance := .num 1 }

/-- A configuration with `VERBOSE` set. -/
def cfgVerbose : Config :=
  { verbose := true, point_overlap := false, global_tolerance := .str "0.01" }

/-- Concrete nodes of the current generation. -/
def cNode0 : CNode :=
  { pyId := 0, x := 0, y := 0, z := 0, key := none, registration := none,
    connectedElems := [] }

def cNode1 : CNode :=
  { pyId := 1, x := 10, y := 0, z := 0, key := none, registration := none,
    connectedElems := [] }

def cNode2 : CNode :=
  { pyId := 2, x := 10, y := 10, z := 0, key := none, registration := none,
    connectedElems := [] }

/-- A second node object at the same location as `cNode0`. -/
def cNode3 : CNode :=
  { pyId := 3, x := 0, y := 0, z := 0, key := none, registration := none,
    connectedElems := [] }

def cMatA : CMaterial := { pyId := 12, name := "matA", key := none }

def cSecA : CSection := { pyId := 11, name := "secA", material := cMatA, key := none }

/-- An element referencing `cNode3`, a node not registered anywhere. -/
def cElemA : CElem := { pyId := 7, nodes := [cNode3], sec := cSecA, key := none }

/-- An empty current-generation part. -/
def cPart0 : CPart :=
  { pid := 100, nodes := [], gkeyNode := [], elements := [], sections := [],
    materials := [] }

/-- A part containing exactly the node `cNode0` (registered). -/
def cPart1 : CPart :=
  { pid := 100,
    nodes := [{ cNode0 with registration := some 100 }],
    gkeyNode := [(CNode.gkey cNode0, 0)], elements := [], sections := [],
    materials := [] }

/-- A part containing three registered nodes. -/
def cPart3 : CPart :=
  { pid := 100,
    nodes := [{ cNode0 with registration := some 100 },
              { cNode1 with registration := some 100 },
              { cNode2 with registration := some 100 }],
    gkeyNode := [(CNode.gkey cNode0, 0), (CNode.gkey cNode1, 1), (CNode.gkey cNode2, 2)],
    elements := [], sections := [], materials := [] }

/-- Concrete serializer-facing nodes (keys 0..3, the §8 quadrilateral). -/
def aNode0 : ANode := { key := 0, x := 0, y := 0, z := 0 }

def aNode1 : ANode := { key := 1, x := 10, y := 0, z := 0 }

def aNode2 : ANode := { key := 2, x := 10, y := 10, z := 0 }

def aNode3 : ANode := { key := 3, x := 0, y := 10, z := 0 }

def aSecA : ASection := { pyId := 50, name := "secA" }

/-- One quadrilateral shell element referencing all four nodes. -/
def aElemA : AElem :=
  { pyId := 60, key := 0, eltype := "S4", sec := aSecA, orientation := none,
    nodes := [aNode0, aNode1, aNode2, aNode3] }

/-- The §8 concrete part: four nodes, one shell element, no groups. -/
def aPartDemo : APart :=
  { name := "p", nodes := [aNode0, aNode1, aNode2, aNode3], elements := [aElemA],
    sections := [aSecA], materials := ["matA"], groups := [], releases := [],
    freshId := 70 }

/-- A legacy element whose connectivity references the absent node key 5. -/
def lElemBad : LElem :=
  { connectivity := [0, 5], eltype := "B31", sec := "secA", orientation := none,
    elset := none, key := 0 }

/-- A legacy part with a single node (key 0). -/
def lPartE1 : LPartE :=
  { nodes := [{ gkey := "0,0,0", label := "n-0", key := 0 }], elements := [],
    byType := [], bySec := [], orientBySec := [], byElset := [], elsets := [] }

/-- A legacy section/material state owning only the material named `matA`. -/
def lPartS1 : LPartS := { materials := ["matA"], sections := [] }

/-- A raw serializer-facing element, before the grouping engine's attribute
accesses: `_eltype` may be absent (`AbaqusMassElement` never sets it) and
the `_orientation` attribute distinguishes absent (`none`), present with
value `None` (`some none`, as `AbaqusTrussElement.__init__` sets it) and
present with a vector (`some (some v)`). -/
structure AElemR where
  pyId : Nat
  key : Nat
  eltype : Option String
  sec : ASection
  orientation : Option (Option (List Int))
  nodes : List ANode
deriving DecidableEq

/-- The grouping engine's view of a raw element once both attribute accesses
succeed: the present `_eltype`, and the orientation vector exactly when the
`_orientation` attribute exists (with the `TypeError` shape excluded,
`hasattr` truth coincides with the presence of a vector). -/
def projR (e : AElemR) : AElem :=
  { pyId := e.pyId, key := e.key, eltype := e.eltype.getD "", sec := e.sec,
    orientation := match e.orientation with
      | some (some v) => some v
      | _ => none,
    nodes := e.nodes }

/-- `AbaqusPart._group_elements` on raw elements, crash paths included.  Its
first statement maps `x._eltype` over every element of the part — an
`AttributeError` when some element lacks the attribute.  The per-
(type, section) orientation comprehension evaluates
`'_'.join(str(i) for i in x._orientation)` for every element of the
subgroup — a `TypeError` when `_orientation` exists but is `None`; the
subgroups cover all elements, so the call raises exactly when some element
carries that shape.  When every access succeeds, the partition is the nested
grouping of the well-formed views. -/
def groupElementsR (es : List AElemR) :
    Except PyErr (List (String × List (ASection × List (Option String × List AElem)))) :=
  if es.any (fun e => e.eltype.isNone) then .error (.attributeError "_eltype")
  else if es.any (fun e => e.orientation = some none) then .error .typeError
  else .ok (groupElements (es.map projR))

/-- A raw truss element: `_eltype` present, `_orientation` attribute present
with value `None` (as `AbaqusTrussElement.__init__` leaves it). -/
def aTrussR : AElemR :=
  { pyId := 61, key := 1, eltype := some "T3D2", sec := aSecA,
    orientation := some none, nodes := [aNode0, aNode1] }

/-- A raw mass element: no `_eltype` attribute
(`AbaqusMassElement.__init__` never assigns one). -/
def aMassR : AElemR :=
  { pyId := 62, key := 2, eltype := none, sec := aSecA, orientation := none,
    nodes := [aNode0] }

/-- A raw shell element on which both attribute accesses succeed. -/
def aShellR : AElemR :=
  { pyId := 60, key := 0, eltype := some "S4", sec := aSecA, orientation := none,
    nodes := [aNode0, aNode1, aNode2, aNode3] }

/-- The material name a legacy section reference resolves to. -/
def lmatName : LMatRef → String
  | .byStr s => s
  | .inst n => n

/-! ## Helper lemmas -/

theorem lReorderNodes_keys (ns : List LNode) :
    (lReorderNodes ns).map (fun n => n.key) = List.range ns.length := by
  unfold lReorderNodes
  rw [List.map_map]
  have h : ((fun n : LNode => n.key) ∘ fun x : Nat × LNode =>
      ({ x.2 with
         key := x.1
         label := if x.2.label.startsWith "n-" then "n-" ++ toString x.1
                  else x.2.label } : LNode)) = Prod.fst := by
    funext x
    rfl
  rw [h, List.enum_map_fst]

theorem lApply_keys (p : LPartN) (op : LOp)
    (h : p.nodes.map (fun n => n.key) = List.range p.nodes.length) :
    (lApply p op).nodes.map (fun n => n.key) =
      List.range (lApply p op).nodes.length := by
  cases op with
  | add g lbl check =>
    simp only [lApply, lAddNode]
    split
    · exact h
    · simp [h, List.range_succ]
  | remove k =>
    simp only [lApply, lRemoveNode]
    split
    · show (lReorderNodes (p.nodes.eraseIdx k)).map (fun n => n.key) =
        List.range (lReorderNodes (p.nodes.eraseIdx k)).length
      have hlen : (lReorderNodes (p.nodes.eraseIdx k)).length =
          (p.nodes.eraseIdx k).length := by
        simp [lReorderNodes]
      rw [hlen]
      exact lReorderNodes_keys (p.nodes.eraseIdx k)
    · exact h

theorem lRun_keys (ops : List LOp) :
    (lRun ops).nodes.map (fun n => n.key) = List.range (lRun ops).nodes.length := by
  suffices h : ∀ p : LPartN,
      p.nodes.map (fun n => n.key) = List.range p.nodes.length →
      (ops.foldl lApply p).nodes.map (fun n => n.key) =
        List.range (ops.foldl lApply p).nodes.length by
    exact h { nodes := [], gkeys := [] } (by simp)
  induction ops with
  | nil => intro p hp; exact hp
  | cons op rest ih => intro p hp; exact ih (lApply p op) (lApply_keys p op hp)

theorem containsNode_iff (p : CPart) (m : CNode) :
    containsNode p m = true ↔ m.pyId ∈ p.nodes.map (fun x => x.pyId) := by
  unfold containsNode
  rw [List.any_eq_true]
  simp only [List.mem_map, decide_eq_true_eq]

theorem registerNode_frame (p : CPart) (n : CNode) :
    (registerNode p n).2.elements = p.elements ∧
    (registerNode p n).2.sections = p.sections ∧
    (registerNode p n).2.materials = p.materials :=
  ⟨rfl, rfl, rfl⟩

theorem registerNode_pyId_mem (p : CPart) (n : CNode) (i : Nat) :
    i ∈ (registerNode p n).2.nodes.map (fun m => m.pyId) ↔
      (i ∈ p.nodes.map (fun m => m.pyId) ∨ i = n.pyId) := by
  have hmap : (p.nodes.map fun m =>
        if m.pyId = n.pyId then { n with registration := some p.pid } else m).map
      (fun m => m.pyId) = p.nodes.map (fun m => m.pyId) := by
    rw [List.map_map]
    refine List.map_congr_left fun (m : CNode) _ => ?_
    simp only [Function.comp_apply]
    by_cases h : m.pyId = n.pyId
    · rw [if_pos h]
      exact h.symm
    · rw [if_neg h]
  simp only [registerNode]
  split
  · next hc =>
    show i ∈ (p.nodes.map fun m =>
        if m.pyId = n.pyId then { n with registration := some p.pid } else m).map
      (fun m => m.pyId) ↔ _
    rw [hmap]
    constructor
    · exact Or.inl
    · rintro (h | rfl)
      · exact h
      · exact (containsNode_iff p n).mp hc
  · show i ∈ (p.nodes ++ [{ n with registration := some p.pid }]).map
      (fun m : CNode => m.pyId) ↔ (i ∈ p.nodes.map (fun m => m.pyId) ∨ i = n.pyId)
    simp [List.mem_append]

theorem addNode_overlap (cfg : Config) (p : CPart) (n : CNode)
    (hv : cfg.verbose = false) (ho : cfg.point_overlap = true) :
    addNode cfg p n = .ok (registerNode p n) := by
  simp [addNode, hv, ho]

theorem addNodesList_overlap (cfg : Config) (hv : cfg.verbose = false)
    (ho : cfg.point_overlap = true) :
    ∀ (ns : List CNode) (p : CPart), ∃ p',
      addNodesList cfg p ns = .ok p' ∧
      p'.elements = p.elements ∧ p'.sections = p.sections ∧
      p'.materials = p.materials ∧
      (∀ i, i ∈ p.nodes.map (fun m => m.pyId) → i ∈ p'.nodes.map (fun m => m.pyId)) ∧
      (∀ n ∈ ns, n.pyId ∈ p'.nodes.map (fun m => m.pyId)) := by
  intro ns
  induction ns with
  | nil =>
    intro p
    exact ⟨p, rfl, rfl, rfl, rfl, fun _ h => h, by simp⟩
  | cons n rest ih =>
    intro p
    obtain ⟨p', h1, h2, h3, h4, h5, h6⟩ := ih (registerNode p n).2
    refine ⟨p', ?_, ?_, ?_, ?_, ?_, ?_⟩
    · show addNodesList cfg p (n :: rest) = .ok p'
      simp only [addNodesList, addNode_overlap cfg p n hv ho]
      exact h1
    · rw [h2]; exact (registerNode_frame p n).1
    · rw [h3]; exact (registerNode_frame p n).2.1
    · rw [h4]; exact (registerNode_frame p n).2.2
    · intro i hi
      exact h5 i ((registerNode_pyId_mem p n i).mpr (Or.inl hi))
    · intro m hm
      rcases List.mem_cons.mp hm with rfl | hm'
      · exact h5 m.pyId ((registerNode_pyId_mem p m m.pyId).mpr (Or.inr rfl))
      · exact h6 m hm'

theorem addBackRefs_pyIds (p : CPart) (e : CElem) :
    (addBackRefs p e).nodes.map (fun m => m.pyId) = p.nodes.map (fun m => m.pyId) := by
  unfold addBackRefs
  show (p.nodes.map _).map _ = _
  rw [List.map_map]
  refine List.map_congr_left fun (m : CNode) _ => ?_
  simp only [Function.comp_apply]
  by_cases h : (e.nodes.any fun n => n.pyId = m.pyId) = true
  · rw [if_pos h]
    by_cases h2 : m.connectedElems.contains e.pyId = true
    · rw [if_pos h2]
    · rw [if_neg h2]
  · rw [if_neg h]

theorem addMaterial_mem (p : CPart) (m : CMaterial) :
    (addMaterial p m).materials.any (fun x => x.pyId = m.pyId) = true := by
  unfold addMaterial
  split
  · next h => exact h
  · simp

theorem addSection_mem (p : CPart) (s : CSection) :
    (addSection p s).sections.any (fun x => x.pyId = s.pyId) = true ∧
    (addSection p s).materials.any (fun x => x.pyId = s.material.pyId) = true := by
  constructor
  · show (if (addMaterial p s.material).sections.any (fun x => x.pyId = s.pyId)
        then (addMaterial p s.material).sections
        else (addMaterial p s.material).sections ++ [s]).any (fun x => x.pyId = s.pyId) = true
    split
    · next h => exact h
    · simp
  · exact addMaterial_mem p s.material

theorem insertByDist_length (d : Nat × Int) (l : List (Nat × Int)) :
    (insertByDist d l).length = l.length + 1 := by
  induction l with
  | nil => rfl
  | cons x xs ih =>
    simp only [insertByDist]
    split
    · simp
    · simp [ih]

theorem sortByDist_length (l : List (Nat × Int)) :
    (sortByDist l).length = l.length := by
  induction l with
  | nil => rfl
  | cons x xs ih => simp [sortByDist, insertByDist_length, ih]

/-! ## Claim theorems -/

/-- C1 (amended): in the legacy registry (`PartBase`), after any finite
sequence of `add_node`/`remove_node` calls starting from a fresh part the
node keys are exactly `0..count-1` in list order (removal triggers
`_reorder_nodes`); in the current `_Part`, `remove_node` leaves the keys of
all surviving nodes untouched (no renumbering), and keys are only ever
assigned by `assign_keys`, which numbers the nodes from `start` (default 1),
not from 0. -/
theorem c1_key_density :
    (∀ ops : List LOp,
        (lRun ops).nodes.map (fun n => n.key) = List.range (lRun ops).nodes.length) ∧
    (∀ (p : CPart) (n : CNode),
        (removeNode p n).nodes.map (fun m => m.key) =
          (p.nodes.filter (fun m => m.pyId ≠ n.pyId)).map (fun m => m.key)) ∧
    (∀ (p : CPart) (start : Nat),
        (assignKeys p start).nodes.map (fun m => m.key) =
          (List.range p.nodes.length).map (fun i => some (start + i))) := by
  refine ⟨lRun_keys, ?_, ?_⟩
  · intro p n
    unfold removeNode
    split
    · rfl
    · next hc =>
      have hall : ∀ m ∈ p.nodes, (decide (m.pyId ≠ n.pyId)) = true := by
        intro m hm
        simp only [containsNode] at hc
        rw [Bool.not_eq_true, List.any_eq_false] at hc
        simpa using hc m hm
      rw [List.filter_eq_self.mpr hall]
  · intro p start
    show (p.nodes.enum.map fun x => { x.2 with key := some (start + x.1) }).map
        (fun m => m.key) = (List.range p.nodes.length).map fun i => some (start + i)
    rw [List.map_map]
    have h : ((fun m : CNode => m.key) ∘ fun x : Nat × CNode =>
        ({ x.2 with key := some (start + x.1) } : CNode)) =
        (fun i => some (start + i)) ∘ Prod.fst := by
      funext x
      rfl
    rw [h, ← List.map_map, List.enum_map_fst]

/-- C1 counterexample: on the current `_Part`, keys assigned by
`assign_keys` (start 1) on a three-node part, then removal of the middle
node, leave two nodes whose key set contains 3 — not `{0, 1}` as the claim
requires. -/
theorem c1_counterexample :
    (removeNode (assignKeys cPart3 1) cNode1).nodes.length = 2 ∧
    some 3 ∈ (removeNode (assignKeys cPart3 1) cNode1).nodes.map (fun m => m.key) ∧
    (removeNode (assignKeys cPart3 1) cNode1).nodes.map (fun m => m.key) ≠
      (List.range 2).map some := by
  decide

/-- C10: with the process-wide `VERBOSE` flag enabled, `_Part.add_node`
returns the incoming node unconditionally and registers nothing: the node
set, the geometric-key index and the whole part state are unchanged, and the
returned node's `_registration` is untouched. -/
theorem c10_verbose_add_node (cfg : Config) (p : CPart) (n : CNode)
    (h : cfg.verbose = true) : addNode cfg p n = .ok (n, p) := by
  simp [addNode, h]

theorem c10_verbose_add_node_witness :
    addNode cfgVerbose cPart1 cNode3 = .ok (cNode3, cPart1) :=
  c10_verbose_add_node cfgVerbose cPart1 cNode3 rfl

/-- C3 (code bug): with `POINT_OVERLAP` unset, `_Part.add_node` passes the
raw environment string `GLOBAL_TOLERANCE` as the distance to
`find_nodes_around_point`, whose first statement squares it — a `TypeError`
on every call, including the claim's scenario of a part already holding a
node at the same location.  With the tolerance as the number the spec
intends, the same code returns the existing node and leaves the part
unchanged, as the claim states. -/
theorem c3_tolerance_type_error :
    addNode cfgEnvStr cPart1 cNode3 = .error .typeError ∧
    addNode cfgDedup cPart1 cNode3 =
      .ok ({ cNode0 with registration := some 100 }, cPart1) := by
  constructor
  · rfl
  · rfl

/-- C8: `_Part.find_closest_nodes_to_point` fails (`ValueError`, the
`InvalidArgument` condition of §7) exactly when the neighbour count is below
1 or exceeds the part's node count, and otherwise returns exactly `k`
nodes. -/
theorem c8_k_validation (p : CPart) (point : Int × Int × Int) (k : Int) :
    ((k < 1 ∨ k > (p.nodes.length : Int)) →
      ∃ m, findClosestNodesToPoint p point k = .error (.valueError m)) ∧
    (1 ≤ k → k ≤ (p.nodes.length : Int) →
      ∃ l, findClosestNodesToPoint p point k = .ok l ∧ (l.length : Int) = k) := by
  constructor
  · intro h
    by_cases h0 : k ≤ 0
    · exact ⟨"The number of nodes to find must be greater than 0.",
        by rw [findClosestNodesToPoint, if_pos h0]⟩
    · have h1 : k > (p.nodes.length : Int) := by
        rcases h with h | h
        · omega
        · exact h
      exact ⟨"The number of nodes to find exceeds the available nodes.",
        by rw [findClosestNodesToPoint, if_neg h0, if_pos h1]⟩
  · intro hk1 hk2
    have h0 : ¬k ≤ 0 := by omega
    have h3 : ¬k > (p.nodes.length : Int) := by omega
    rw [findClosestNodesToPoint, if_neg h0, if_neg h3]
    refine ⟨_, rfl, ?_⟩
    simp only [List.length_map, List.length_take, sortByDist_length,
      List.enum_length]
    omega

theorem c8_k_validation_witness :
    (∃ m, findClosestNodesToPoint cPart3 (0, 0, 0) 0 = .error (.valueError m)) ∧
    (∃ l, findClosestNodesToPoint cPart3 (0, 0, 0) 2 = .ok l ∧ (l.length : Int) = 2) :=
  ⟨(c8_k_validation cPart3 (0, 0, 0) 0).1 (by decide),
   (c8_k_validation cPart3 (0, 0, 0) 2).2 (by decide) (by decide)⟩

/-- C2 (amended): the current `_Part.add_element` performs no
referential-integrity check: with `checks` enabled it only skips
already-contained (or non-element) inputs; otherwise it succeeds, implicitly
registering the element's nodes (via `add_nodes`), its section and its
material, and appending the element — even when none of its nodes were
registered beforehand.  In the legacy `PartBase.add_element`, a connectivity
index absent from the registered node keys raises an error (`ValueError`)
before the element is appended, so the failed call registers nothing. -/
theorem c2_add_element_no_check :
    (∀ (cfg : Config) (p : CPart) (e : CElem),
      cfg.verbose = false → cfg.point_overlap = true → containsElement p e = false →
      ∃ p', addElement cfg p e true = .ok (e, p') ∧
        p'.elements = p.elements ++ [e] ∧
        (∀ n ∈ e.nodes, n.pyId ∈ p'.nodes.map (fun m => m.pyId)) ∧
        p'.sections.any (fun s => s.pyId = e.sec.pyId) = true ∧
        p'.materials.any (fun m => m.pyId = e.sec.material.pyId) = true) ∧
    (∀ (p : LPartE) (e : LElem),
      (lCheckElementInPart p e).isEmpty = true →
      e.connectivity.any (fun c => !(p.nodes.map (fun n => n.key)).contains c) = true →
      lAddElement p e true = .error "ERROR CREATING ELEMENT: node not found") := by
  constructor
  · intro cfg p e hv ho hce
    obtain ⟨p1, h1, h2, h3, h4, h5, h6⟩ := addNodesList_overlap cfg hv ho e.nodes p
    have helems : (addSection (addBackRefs p1 e) e.sec).elements = p.elements := by
      show (addBackRefs p1 e).elements = p.elements
      show p1.elements = p.elements
      exact h2
    have hc3 : containsElement (addSection (addBackRefs p1 e) e.sec) e = false := by
      unfold containsElement at hce ⊢
      rw [helems]
      exact hce
    refine ⟨{ addSection (addBackRefs p1 e) e.sec with
              elements := (addSection (addBackRefs p1 e) e.sec).elements ++ [e] },
            ?_, ?_, ?_, ?_, ?_⟩
    · show addElement cfg p e true = _
      unfold addElement
      rw [hce]
      simp only [Bool.and_false, Bool.false_eq_true, if_false, h1]
      rw [hc3]
      simp
    · show (addSection (addBackRefs p1 e) e.sec).elements ++ [e] = p.elements ++ [e]
      rw [helems]
    · intro n hn
      show n.pyId ∈ (addSection (addBackRefs p1 e) e.sec).nodes.map (fun m => m.pyId)
      show n.pyId ∈ (addBackRefs p1 e).nodes.map (fun m => m.pyId)
      rw [addBackRefs_pyIds]
      exact h6 n hn
    · exact (addSection_mem (addBackRefs p1 e) e.sec).1
    · exact (addSection_mem (addBackRefs p1 e) e.sec).2
  · intro p e h1 h2
    unfold lAddElement
    rw [h1]
    simp only [Bool.not_true, Bool.and_false, Bool.false_eq_true, if_false]
    rw [if_pos h2]

/-- C2 counterexample: on an empty current-generation part,
`add_element(checks=True)` with an element whose only node is unregistered
succeeds and registers the element (id 7), the node (id 3, with the
element back-reference), the section (id 11) and the material (id 12) —
instead of failing with `ReferentialIntegrityError` and registering
nothing. -/
theorem c2_counterexample :
    (addElement cfgOverlap cPart0 cElemA true).toOption.map
        (fun r => (r.2.elements.map (fun e => e.pyId),
                   r.2.nodes.map (fun m => (m.pyId, m.connectedElems)),
                   r.2.sections.map (fun s => s.pyId),
                   r.2.materials.map (fun m => m.pyId))) =
      some ([7], [(3, [7])], [11], [12]) := by
  decide

theorem c2_add_element_no_check_witness :
    (∃ p', addElement cfgOverlap cPart0 cElemA true = .ok (cElemA, p') ∧
      p'.elements = cPart0.elements ++ [cElemA] ∧
      (∀ n ∈ cElemA.nodes, n.pyId ∈ p'.nodes.map (fun m => m.pyId)) ∧
      p'.sections.any (fun s => s.pyId = cElemA.sec.pyId) = true ∧
      p'.materials.any (fun m => m.pyId = cElemA.sec.material.pyId) = true) ∧
    lAddElement lPartE1 lElemBad true = .error "ERROR CREATING ELEMENT: node not found" :=
  ⟨c2_add_element_no_check.1 cfgOverlap cPart0 cElemA rfl rfl (by decide),
   c2_add_element_no_check.2 lPartE1 lElemBad (by decide) (by decide)⟩

/-- C9 (amended): the current `_Part.add_section` never fails for a missing
material — it unconditionally registers the section's material via
`add_material` and then the section itself.  In the legacy
`PartBase.add_section`, for a section name not yet present, the material
reference (a string, or an instance's name) must resolve among the part's
registered material names, else the call raises an error (`ValueError`, the
`MissingDependencyError` role of §7) and registers nothing; when it
resolves, the section is registered. -/
theorem c9_add_section_dependency :
    (∀ (p : CPart) (s : CSection),
      (addSection p s).sections.any (fun x => x.pyId = s.pyId) = true ∧
      (addSection p s).materials.any (fun x => x.pyId = s.material.pyId) = true) ∧
    (∀ (p : LPartS) (nm : String) (mat : LMatRef),
      (p.sections.map (fun s => s.1)).contains nm = false →
      ((p.materials.contains (lmatName mat) = false →
          lAddSection p nm mat = .error "ERROR: material not found in the Part!") ∧
       (p.materials.contains (lmatName mat) = true →
          lAddSection p nm mat = .ok { p with sections := p.sections ++ [(nm, mat)] }))) := by
  constructor
  · intro p s
    exact addSection_mem p s
  · intro p nm mat hnm
    constructor
    · intro hmat
      cases mat with
      | byStr s =>
        unfold lAddSection
        rw [hnm]
        simp only [lmatName] at hmat
        simp [hmat]
        simpa using hmat
      | inst n =>
        unfold lAddSection
        rw [hnm]
        simp only [lmatName] at hmat
        simp [hmat]
        simpa using hmat
    · intro hmat
      cases mat with
      | byStr s =>
        unfold lAddSection
        rw [hnm]
        simp only [lmatName] at hmat
        simp [hmat]
        simpa using hmat
      | inst n =>
        unfold lAddSection
        rw [hnm]
        simp only [lmatName] at hmat
        simp [hmat]
        simpa using hmat

/-- C9 counterexample: on an empty current-generation part, `add_section`
with a section whose material is unregistered (and unresolvable — the part
has no materials at all) does not fail: it registers both the material and
the section. -/
theorem c9_counterexample :
    addSection cPart0 cSecA = { cPart0 with materials := [cMatA], sections := [cSecA] } := by
  rfl

theorem c9_add_section_dependency_witness :
    ((addSection cPart0 cSecA).sections.any (fun x => x.pyId = cSecA.pyId) = true ∧
     (addSection cPart0 cSecA).materials.any
       (fun x => x.pyId = cSecA.material.pyId) = true) ∧
    lAddSection lPartS1 "badSec" (.inst "matB") =
      .error "ERROR: material not found in the Part!" ∧
    lAddSection lPartS1 "goodSec" (.inst "matA") =
      .ok { lPartS1 with sections := lPartS1.sections ++ [("goodSec", .inst "matA")] } :=
  ⟨c9_add_section_dependency.1 cPart0 cSecA,
   (c9_add_section_dependency.2 lPartS1 "badSec" (.inst "matB") (by decide)).1 (by decide),
   (c9_add_section_dependency.2 lPartS1 "goodSec" (.inst "matA") (by decide)).2 (by decide)⟩

theorem addGroup_frame (p : APart) (g : AGroup) :
    (addGroup p g).name = p.name ∧ (addGroup p g).nodes = p.nodes ∧
    (addGroup p g).elements = p.elements ∧ (addGroup p g).sections = p.sections ∧
    (addGroup p g).materials = p.materials ∧ (addGroup p g).releases = p.releases := by
  unfold addGroup
  split
  · exact ⟨rfl, rfl, rfl, rfl, rfl, rfl⟩
  · exact ⟨rfl, rfl, rfl, rfl, rfl, rfl⟩

theorem emitBuckets_frame (bs : List (String × ASection × Option String × List AElem)) :
    ∀ p : APart, (emitBuckets p bs).2.name = p.name ∧
      (emitBuckets p bs).2.nodes = p.nodes ∧
      (emitBuckets p bs).2.elements = p.elements ∧
      (emitBuckets p bs).2.sections = p.sections ∧
      (emitBuckets p bs).2.materials = p.materials ∧
      (emitBuckets p bs).2.releases = p.releases := by
  induction bs with
  | nil =>
    intro p
    exact ⟨rfl, rfl, rfl, rfl, rfl, rfl⟩
  | cons b rest ih =>
    intro p
    obtain ⟨t, s, o, els⟩ := b
    have h1 := addGroup_frame { p with freshId := p.freshId + 1 }
      { pyId := p.freshId, name := auxName t s o, elems := els }
    have h2 := ih (addGroup { p with freshId := p.freshId + 1 }
      { pyId := p.freshId, name := auxName t s o, elems := els })
    refine ⟨?_, ?_, ?_, ?_, ?_, ?_⟩
    · show (emitBuckets (addGroup { p with freshId := p.freshId + 1 }
        { pyId := p.freshId, name := auxName t s o, elems := els }) rest).2.name = p.name
      rw [h2.1]
      exact h1.1
    · show (emitBuckets (addGroup { p with freshId := p.freshId + 1 }
        { pyId := p.freshId, name := auxName t s o, elems := els }) rest).2.nodes = p.nodes
      rw [h2.2.1]
      exact h1.2.1
    · show (emitBuckets (addGroup { p with freshId := p.freshId + 1 }
        { pyId := p.freshId, name := auxName t s o, elems := els }) rest).2.elements =
        p.elements
      rw [h2.2.2.1]
      exact h1.2.2.1
    · show (emitBuckets (addGroup { p with freshId := p.freshId + 1 }
        { pyId := p.freshId, name := auxName t s o, elems := els }) rest).2.sections =
        p.sections
      rw [h2.2.2.2.1]
      exact h1.2.2.2.1
    · show (emitBuckets (addGroup { p with freshId := p.freshId + 1 }
        { pyId := p.freshId, name := auxName t s o, elems := els }) rest).2.materials =
        p.materials
      rw [h2.2.2.2.2.1]
      exact h1.2.2.2.2.1
    · show (emitBuckets (addGroup { p with freshId := p.freshId + 1 }
        { pyId := p.freshId, name := auxName t s o, elems := els }) rest).2.releases =
        p.releases
      rw [h2.2.2.2.2.2]
      exact h1.2.2.2.2.2

theorem emitBuckets_groups (bs : List (String × ASection × Option String × List AElem)) :
    ∀ p : APart, (∀ g ∈ p.groups, g.pyId < p.freshId) →
      (emitBuckets p bs).2.groups = p.groups ++ auxGroupsFrom p.freshId bs ∧
      (emitBuckets p bs).2.freshId = p.freshId + bs.length := by
  induction bs with
  | nil =>
    intro p _
    exact ⟨by simp [emitBuckets, auxGroupsFrom], rfl⟩
  | cons b rest ih =>
    intro p hp
    obtain ⟨t, s, o, els⟩ := b
    have hcg : containsGroup { p with freshId := p.freshId + 1 }
        { pyId := p.freshId, name := auxName t s o, elems := els } = false := by
      unfold containsGroup
      rw [List.any_eq_false]
      intro g hg
      have := hp g hg
      simp only [decide_eq_true_eq]
      omega
    have haddg : addGroup { p with freshId := p.freshId + 1 }
        { pyId := p.freshId, name := auxName t s o, elems := els } =
        { p with freshId := p.freshId + 1,
                 groups := p.groups ++
                   [{ pyId := p.freshId, name := auxName t s o, elems := els }] } := by
      unfold addGroup
      rw [hcg]
      simp
    have hpre : ∀ g ∈ (addGroup { p with freshId := p.freshId + 1 }
        { pyId := p.freshId, name := auxName t s o, elems := els }).groups,
        g.pyId < (addGroup { p with freshId := p.freshId + 1 }
          { pyId := p.freshId, name := auxName t s o, elems := els }).freshId := by
      rw [haddg]
      intro g hg
      show g.pyId < p.freshId + 1
      have hg' : g ∈ p.groups ++
          [({ pyId := p.freshId, name := auxName t s o, elems := els } : AGroup)] := hg
      rcases List.mem_append.mp hg' with h | h
      · exact Nat.lt_succ_of_lt (hp g h)
      · rw [List.mem_singleton] at h
        rw [h]
        exact Nat.lt_succ_self _
    obtain ⟨ihg, ihf⟩ := ih _ hpre
    constructor
    · show (emitBuckets (addGroup { p with freshId := p.freshId + 1 }
        { pyId := p.freshId, name := auxName t s o, elems := els }) rest).2.groups =
        p.groups ++ auxGroupsFrom p.freshId ((t, s, o, els) :: rest)
      rw [ihg, haddg]
      show (p.groups ++ [{ pyId := p.freshId, name := auxName t s o, elems := els }]) ++
          auxGroupsFrom (p.freshId + 1) rest =
        p.groups ++ auxGroupsFrom p.freshId ((t, s, o, els) :: rest)
      rw [List.append_assoc]
      rfl
    · show (emitBuckets (addGroup { p with freshId := p.freshId + 1 }
        { pyId := p.freshId, name := auxName t s o, elems := els }) rest).2.freshId =
        p.freshId + ((t, s, o, els) :: rest).length
      rw [ihf, haddg]
      show (p.freshId + 1) + rest.length = p.freshId + (rest.length + 1)
      omega

theorem emitBuckets_no_node_chunk
    (bs : List (String × ASection × Option String × List AElem)) :
    ∀ (p : APart) (c : Chunk), c ∈ (emitBuckets p bs).1 → isNodeChunk c = false := by
  induction bs with
  | nil =>
    intro p c hc
    simp [emitBuckets] at hc
  | cons b rest ih =>
    intro p c hc
    obtain ⟨t, s, o, els⟩ := b
    have hc' : c ∈ (Chunk.elemHeader t :: els.map Chunk.elemLine ++
        [Chunk.elsetData { pyId := p.freshId, name := auxName t s o, elems := els },
         Chunk.sectionData s (auxName t s o) o]) ++
        (emitBuckets (addGroup { p with freshId := p.freshId + 1 }
          { pyId := p.freshId, name := auxName t s o, elems := els }) rest).1 := hc
    rcases List.mem_append.mp hc' with h | h
    · rcases List.mem_cons.mp h with h1 | h1
      · rw [h1]; rfl
      · rcases List.mem_append.mp h1 with h2 | h2
        · obtain ⟨e, _, he⟩ := List.mem_map.mp h2
          rw [← he]; rfl
        · rcases List.mem_cons.mp h2 with h3 | h3
          · rw [h3]; rfl
          · rw [List.mem_singleton] at h3
            rw [h3]; rfl
    · exact ih _ c h

theorem emitBuckets_header_count
    (bs : List (String × ASection × Option String × List AElem)) :
    ∀ p : APart, ((emitBuckets p bs).1.countP isElemHeader) = bs.length := by
  induction bs with
  | nil =>
    intro p
    rfl
  | cons b rest ih =>
    intro p
    obtain ⟨t, s, o, els⟩ := b
    show ((Chunk.elemHeader t :: els.map Chunk.elemLine ++
        [Chunk.elsetData _, Chunk.sectionData s (auxName t s o) o]) ++
        (emitBuckets _ rest).1).countP isElemHeader = rest.length + 1
    rw [List.countP_append, ih]
    have hmap : (els.map Chunk.elemLine).countP isElemHeader = 0 := by
      rw [List.countP_map]
      exact List.countP_eq_zero.mpr (fun e _ => by simp [Function.comp, isElemHeader])
    have hhead : List.countP isElemHeader
        (Chunk.elemHeader t :: List.map Chunk.elemLine els ++
          [Chunk.elsetData { pyId := p.freshId, name := auxName t s o, elems := els },
           Chunk.sectionData s (auxName t s o) o]) = 1 := by
      simp [List.countP_cons, List.countP_append, hmap, isElemHeader]
    rw [hhead]
    omega

/-- C4 (amended): generating the job-data text leaves the part's node,
element, section and material collections untouched, but it does mutate the
group collection: `_generate_jobdata` calls `add_group` once per
(type, section, orientation) bucket, appending the synthesized auxiliary
`ElementsGroup`s (fresh objects, so the identity-based `contains_group`
check never suppresses them). -/
theorem c4_serialization_frame (p : APart)
    (h : ∀ g ∈ p.groups, g.pyId < p.freshId) :
    (generateJobdata p).2.nodes = p.nodes ∧
    (generateJobdata p).2.elements = p.elements ∧
    (generateJobdata p).2.sections = p.sections ∧
    (generateJobdata p).2.materials = p.materials ∧
    (generateJobdata p).2.groups =
      p.groups ++ auxGroupsFrom p.freshId (flatBuckets p.elements) := by
  have hf := emitBuckets_frame (flatBuckets p.elements) p
  have hg := (emitBuckets_groups (flatBuckets p.elements) p h).1
  exact ⟨hf.2.1, hf.2.2.1, hf.2.2.2.1, hf.2.2.2.2.1, hg⟩

/-- C4 counterexample: serializing the concrete four-node one-element part
changes its group collection — the auxiliary elset `aux_S4_secA` is
registered on the part by the serializer, so the graph is not left
unmutated. -/
theorem c4_counterexample :
    (generateJobdata aPartDemo).2.groups ≠ aPartDemo.groups ∧
    (generateJobdata aPartDemo).2.groups.map (fun g => g.name) = ["aux_S4_secA"] := by
  decide

theorem c4_serialization_frame_witness :
    (generateJobdata aPartDemo).2.nodes = aPartDemo.nodes ∧
    (generateJobdata aPartDemo).2.elements = aPartDemo.elements ∧
    (generateJobdata aPartDemo).2.sections = aPartDemo.sections ∧
    (generateJobdata aPartDemo).2.materials = aPartDemo.materials ∧
    (generateJobdata aPartDemo).2.groups =
      aPartDemo.groups ++ auxGroupsFrom aPartDemo.freshId (flatBuckets aPartDemo.elements) :=
  c4_serialization_frame aPartDemo (by simp [aPartDemo])

/-- C6: the emitted connectivity line of an element is exactly the spec's
`<element key + 1>, <node key + 1>,...` line (the 1-based shift is applied in
the rendering only), and serialization leaves every internal node and
element record — in particular their keys — unchanged. -/
theorem c6_connectivity_line :
    (∀ e : AElem, renderChunk (Chunk.elemLine e) =
      specConnectivityLine (e.key + 1) (e.nodes.map (fun n => n.key + 1))) ∧
    (∀ p : APart, (generateJobdata p).2.nodes = p.nodes ∧
      (generateJobdata p).2.elements = p.elements) := by
  constructor
  · intro e
    unfold renderChunk specConnectivityLine
    rw [List.map_map]
    rfl
  · intro p
    have hf := emitBuckets_frame (flatBuckets p.elements) p
    exact ⟨hf.2.1, hf.2.2.1⟩

/-- C7: for a part whose node sequence carries the dense keys
`0..count-1` in order (as the registry maintains them), the serialized
fragment stream opens with the part header and then exactly one node block —
the `*Node` header followed by one line per node, each node once, in
ascending key order — and every fragment after that block (element
declarations included) is not a node fragment. -/
theorem c7_node_block (p : APart)
    (h : p.nodes.map (fun n => n.key) = List.range p.nodes.length) :
    ∃ rest, (generateJobdata p).1 =
        Chunk.partHeader p.name :: Chunk.nodeHeader :: p.nodes.map Chunk.nodeLine ++ rest ∧
      (∀ c ∈ rest, isNodeChunk c = false) ∧
      List.Pairwise (· < ·) (p.nodes.map (fun n => n.key)) ∧
      p.nodes.Nodup := by
  refine ⟨(emitBuckets p (flatBuckets p.elements)).1 ++
      ((emitBuckets p (flatBuckets p.elements)).2.groups.map Chunk.groupData ++
       ((if p.releases.isEmpty then []
         else Chunk.releaseHeader :: p.releases.map Chunk.releaseData) ++
        [Chunk.endPart])), ?_, ?_, ?_, ?_⟩
  · show (generateJobdata p).1 = _
    unfold generateJobdata
    simp [List.append_assoc]
  · intro c hc
    rcases List.mem_append.mp hc with h1 | h1
    · exact emitBuckets_no_node_chunk (flatBuckets p.elements) p c h1
    · rcases List.mem_append.mp h1 with h2 | h2
      · obtain ⟨g, _, hg⟩ := List.mem_map.mp h2
        rw [← hg]
        rfl
      · rcases List.mem_append.mp h2 with h3 | h3
        · split at h3
          · simp at h3
          · rcases List.mem_cons.mp h3 with h4 | h4
            · rw [h4]
              rfl
            · obtain ⟨r, _, hr⟩ := List.mem_map.mp h4
              rw [← hr]
              rfl
        · rw [List.mem_singleton] at h3
          rw [h3]
          rfl
  · rw [h]
    exact List.pairwise_lt_range p.nodes.length
  · exact List.Nodup.of_map (fun n => n.key) (by rw [h]; exact List.nodup_range p.nodes.length)

theorem c7_node_block_witness :
    ∃ rest, (generateJobdata aPartDemo).1 =
        Chunk.partHeader aPartDemo.name :: Chunk.nodeHeader ::
          aPartDemo.nodes.map Chunk.nodeLine ++ rest ∧
      (∀ c ∈ rest, isNodeChunk c = false) ∧
      List.Pairwise (· < ·) (aPartDemo.nodes.map (fun n => n.key)) ∧
      aPartDemo.nodes.Nodup :=
  c7_node_block aPartDemo (by rfl)

theorem sum_map_ite_mem {κ : Type} [DecidableEq κ] (c : Nat) (k0 : κ) :
    ∀ l : List κ, l.Nodup →
      (l.map (fun k => if k0 = k then c else 0)).sum = if k0 ∈ l then c else 0 := by
  intro l
  induction l with
  | nil =>
    intro _
    simp
  | cons x xs ih =>
    intro hnd
    rw [List.nodup_cons] at hnd
    obtain ⟨hx, hxs⟩ := hnd
    simp only [List.map_cons, List.sum_cons, ih hxs]
    by_cases h : k0 = x
    · subst h
      simp [hx]
    · simp [h, List.mem_cons]

theorem grouped_filter_perm {α κ : Type} [DecidableEq α] [DecidableEq κ]
    (f : α → κ) (es : List α) :
    ((es.map f).dedup.flatMap (fun k => es.filter (fun e => f e = k))).Perm es := by
  rw [List.perm_iff_count]
  intro a
  rw [List.flatMap_def, List.count_flatten, List.map_map]
  have h1 : ∀ k, (es.filter (fun e => f e = k)).count a =
      if f a = k then es.count a else 0 := by
    intro k
    by_cases h : f a = k
    · rw [if_pos h]
      exact List.count_filter (by simpa using h)
    · rw [if_neg h, List.count_eq_zero]
      intro hmem
      rw [List.mem_filter] at hmem
      exact h (by simpa using hmem.2)
  have h2 : (es.map f).dedup.map (List.count a ∘ fun k => es.filter (fun e => f e = k)) =
      (es.map f).dedup.map (fun k => if f a = k then es.count a else 0) :=
    List.map_congr_left (fun k _ => h1 k)
  rw [h2, sum_map_ite_mem (es.count a) (f a) _ (List.nodup_dedup _)]
  by_cases ha : a ∈ es
  · rw [if_pos (List.mem_dedup.mpr (List.mem_map_of_mem f ha))]
  · rw [List.count_eq_zero.mpr ha]
    simp

theorem groupByType_flat_perm (es : List AElem) :
    ((groupByType es).flatMap (fun b => b.2)).Perm es := by
  unfold groupByType
  rw [List.flatMap_map]
  exact grouped_filter_perm (fun e => e.eltype) es

theorem groupBySec_flat_perm (es : List AElem) :
    ((groupBySec es).flatMap (fun b => b.2)).Perm es := by
  unfold groupBySec
  rw [List.flatMap_map]
  exact grouped_filter_perm (fun e => e.sec) es

theorem groupByOrientation_flat_perm (es : List AElem) :
    ((groupByOrientation es).flatMap (fun b => b.2)).Perm es := by
  unfold groupByOrientation
  rw [List.flatMap_map]
  exact grouped_filter_perm okeyOf es

theorem flatBuckets_cover_perm (es : List AElem) :
    ((flatBuckets es).flatMap (fun b => b.2.2.2)).Perm es := by
  have hstep : (flatBuckets es).flatMap (fun b => b.2.2.2) =
      (groupByType es).flatMap (fun ts =>
        (groupBySec ts.2).flatMap (fun ss =>
          (groupByOrientation ss.2).flatMap (fun os => os.2))) := by
    unfold flatBuckets groupElements
    simp only [List.flatMap_map, List.flatMap_assoc]
  rw [hstep]
  refine (List.Perm.flatMap_left _ (fun ts _ => ?_)).trans (groupByType_flat_perm es)
  refine (List.Perm.flatMap_left _ (fun ss _ => ?_)).trans (groupBySec_flat_perm ts.2)
  exact groupByOrientation_flat_perm ss.2

theorem flatBuckets_keys_eq (es : List AElem) :
    (flatBuckets es).map (fun b => (b.1, b.2.1, b.2.2.1)) =
      (groupByType es).flatMap (fun ts =>
        (groupBySec ts.2).flatMap (fun ss =>
          (groupByOrientation ss.2).map (fun os => (ts.1, ss.1, os.1)))) := by
  unfold flatBuckets groupElements
  simp only [List.map_flatMap, List.flatMap_map, List.map_map]
  rfl

theorem groupByOrientation_keys_nodup (L : List AElem) (t : String) (s : ASection) :
    ((groupByOrientation L).map (fun os => (t, s, os.1))).Nodup := by
  unfold groupByOrientation
  rw [List.map_map]
  have hcomp : ((fun os : Option String × List AElem => (t, s, os.1)) ∘
      fun o => (o, L.filter (fun e => okeyOf e = o))) =
      fun o => (t, s, o) := rfl
  rw [hcomp]
  exact (List.nodup_dedup _).map (fun a b hab => by simpa using hab)

theorem groupBySec_level_nodup (L : List AElem) (t : String) :
    ((groupBySec L).flatMap (fun ss =>
      (groupByOrientation ss.2).map (fun os => (t, ss.1, os.1)))).Nodup := by
  rw [List.nodup_flatMap]
  constructor
  · intro ss _
    exact groupByOrientation_keys_nodup ss.2 t ss.1
  · unfold groupBySec
    rw [List.pairwise_map]
    have hnd : List.Pairwise (· ≠ ·) ((L.map (fun e : AElem => e.sec)).dedup) :=
      List.nodup_dedup (L.map (fun e : AElem => e.sec))
    refine List.Pairwise.imp ?_ hnd
    intro s1 s2 hne x hx1 hx2
    obtain ⟨os1, _, h1⟩ := List.mem_map.mp hx1
    obtain ⟨os2, _, h2⟩ := List.mem_map.mp hx2
    exact hne (congrArg (fun q : String × ASection × Option String => q.2.1)
      (h1.trans h2.symm))

theorem flatBuckets_keys_nodup (es : List AElem) :
    ((flatBuckets es).map (fun b => (b.1, b.2.1, b.2.2.1))).Nodup := by
  rw [flatBuckets_keys_eq, List.nodup_flatMap]
  constructor
  · intro ts _
    exact groupBySec_level_nodup ts.2 ts.1
  · unfold groupByType
    rw [List.pairwise_map]
    have hnd : List.Pairwise (· ≠ ·) ((es.map (fun e : AElem => e.eltype)).dedup) :=
      List.nodup_dedup (es.map (fun e : AElem => e.eltype))
    refine List.Pairwise.imp ?_ hnd
    intro t1 t2 hne x hx1 hx2
    obtain ⟨ss1, _, hm1⟩ := List.mem_flatMap.mp hx1
    obtain ⟨os1, _, h1⟩ := List.mem_map.mp hm1
    obtain ⟨ss2, _, hm2⟩ := List.mem_flatMap.mp hx2
    obtain ⟨os2, _, h2⟩ := List.mem_map.mp hm2
    exact hne (congrArg (fun q : String × ASection × Option String => q.1)
      (h1.trans h2.symm))

theorem mem_flatBuckets_keys (es : List AElem) (tr : String × ASection × Option String) :
    tr ∈ (flatBuckets es).map (fun b => (b.1, b.2.1, b.2.2.1)) ↔
      ∃ e ∈ es, tripleOf e = tr := by
  rw [flatBuckets_keys_eq]
  constructor
  · intro h
    obtain ⟨ts, hts, hmem⟩ := List.mem_flatMap.mp h
    obtain ⟨ss, hss, hmem2⟩ := List.mem_flatMap.mp hmem
    obtain ⟨os, hos, heq⟩ := List.mem_map.mp hmem2
    unfold groupByType at hts
    obtain ⟨t, _, hts'⟩ := List.mem_map.mp hts
    rw [← hts'] at hss heq
    unfold groupBySec at hss
    obtain ⟨s, _, hss'⟩ := List.mem_map.mp hss
    rw [← hss'] at hos heq
    unfold groupByOrientation at hos
    obtain ⟨o, ho, hos'⟩ := List.mem_map.mp hos
    rw [← hos'] at heq
    rw [List.mem_dedup] at ho
    obtain ⟨e, he, hoe⟩ := List.mem_map.mp ho
    rw [List.mem_filter] at he
    obtain ⟨he1, he2⟩ := he
    rw [List.mem_filter] at he1
    obtain ⟨he3, he4⟩ := he1
    refine ⟨e, he3, ?_⟩
    rw [← heq]
    unfold tripleOf
    have het : e.eltype = t := by simpa using he4
    have hes : e.sec = s := by simpa using he2
    rw [het, hes, hoe]
  · rintro ⟨e, he, rfl⟩
    rw [List.mem_flatMap]
    refine ⟨(e.eltype, es.filter (fun x => x.eltype = e.eltype)), ?_, ?_⟩
    · unfold groupByType
      exact List.mem_map.mpr
        ⟨e.eltype, List.mem_dedup.mpr (List.mem_map_of_mem _ he), rfl⟩
    · rw [List.mem_flatMap]
      refine ⟨(e.sec, (es.filter (fun x => x.eltype = e.eltype)).filter
          (fun x => x.sec = e.sec)), ?_, ?_⟩
      · unfold groupBySec
        refine List.mem_map.mpr ⟨e.sec, ?_, rfl⟩
        rw [List.mem_dedup]
        refine List.mem_map_of_mem _ ?_
        rw [List.mem_filter]
        exact ⟨he, by simp⟩
      · refine List.mem_map.mpr
          ⟨(okeyOf e, ((es.filter (fun x => x.eltype = e.eltype)).filter
            (fun x => x.sec = e.sec)).filter (fun x => okeyOf x = okeyOf e)), ?_, rfl⟩
        unfold groupByOrientation
        refine List.mem_map.mpr ⟨okeyOf e, ?_, rfl⟩
        rw [List.mem_dedup]
        refine List.mem_map_of_mem _ ?_
        rw [List.mem_filter, List.mem_filter]
        exact ⟨⟨he, by simp⟩, by simp⟩

theorem flatBuckets_length (es : List AElem) :
    (flatBuckets es).length = ((es.map tripleOf).dedup).length := by
  have hperm : ((flatBuckets es).map (fun b => (b.1, b.2.1, b.2.2.1))).Perm
      ((es.map tripleOf).dedup) := by
    rw [List.perm_ext_iff_of_nodup (flatBuckets_keys_nodup es) (List.nodup_dedup _)]
    intro tr
    rw [mem_flatBuckets_keys, List.mem_dedup, List.mem_map]
  have hlen := hperm.length_eq
  rwa [List.length_map] at hlen

/-- C5 counterexample: a part whose only element is a truss
(`_orientation` attribute present with value `None`): `_group_elements`
raises `TypeError`, so no partition exists and no element block can be
emitted, while the element contributes one distinct
(type, section, orientation) tuple; a part whose only element is a mass
element (no `_eltype`) likewise raises `AttributeError`. -/
theorem c5_counterexample :
    groupElementsR [aTrussR] = .error PyErr.typeError ∧
    (([aTrussR].map projR).map tripleOf).dedup.length = 1 ∧
    groupElementsR [aMassR] = .error (.attributeError "_eltype") := by
  exact ⟨rfl, by decide, rfl⟩

/-- C5 (amended): on a part containing an element without `_eltype`
(a mass element) `_group_elements` raises `AttributeError`; with all
`_eltype`s present, on a part containing an element whose `_orientation`
attribute is `None` (a truss element) it raises `TypeError` — in both cases
no partition is produced and no element-declaration block is emitted.  When
every element exposes `_eltype` and every present `_orientation` holds a
vector, the grouping succeeds, and on that universe the partition covers
every element exactly once (the concatenation of the leaf buckets is a
permutation of the element collection), the number of leaf buckets equals
the number of distinct (type, section, orientation-key) tuples, and the
serializer emits exactly one `*Element` declaration header per leaf
bucket. -/
theorem c5_grouping_partition :
    (∀ es : List AElemR, (∃ e ∈ es, e.eltype = none) →
      groupElementsR es = .error (.attributeError "_eltype")) ∧
    (∀ es : List AElemR, (∀ e ∈ es, e.eltype ≠ none) →
      (∃ e ∈ es, e.orientation = some none) →
      groupElementsR es = .error .typeError) ∧
    (∀ es : List AElemR, (∀ e ∈ es, e.eltype ≠ none) →
      (∀ e ∈ es, e.orientation ≠ some none) →
      groupElementsR es = .ok (groupElements (es.map projR))) ∧
    (∀ (es : List AElem) (p : APart),
      ((flatBuckets es).flatMap (fun b => b.2.2.2)).Perm es ∧
      (flatBuckets es).length = ((es.map tripleOf).dedup).length ∧
      (generateJobdata p).1.countP isElemHeader = (flatBuckets p.elements).length) := by
  refine ⟨?_, ?_, ?_, ?_⟩
  · rintro es ⟨e, he, hnone⟩
    unfold groupElementsR
    rw [if_pos (List.any_eq_true.mpr ⟨e, he, by rw [hnone]; rfl⟩)]
  · intro es helt ⟨e, he, hor⟩
    unfold groupElementsR
    rw [if_neg ?_, if_pos (List.any_eq_true.mpr ⟨e, he, by rw [hor]; rfl⟩)]
    intro hany
    obtain ⟨e', he', hnone'⟩ := List.any_eq_true.mp hany
    exact helt e' he' (Option.isNone_iff_eq_none.mp hnone')
  · intro es helt hor
    unfold groupElementsR
    rw [if_neg ?_, if_neg ?_]
    · intro hany
      obtain ⟨e', he', hor'⟩ := List.any_eq_true.mp hany
      exact hor e' he' (of_decide_eq_true hor')
    · intro hany
      obtain ⟨e', he', hnone'⟩ := List.any_eq_true.mp hany
      exact helt e' he' (Option.isNone_iff_eq_none.mp hnone')
  · intro es p
    refine ⟨flatBuckets_cover_perm es, flatBuckets_length es, ?_⟩
    have hform : (generateJobdata p).1 =
        Chunk.partHeader p.name :: Chunk.nodeHeader :: p.nodes.map Chunk.nodeLine ++
          (emitBuckets p (flatBuckets p.elements)).1 ++
          (emitBuckets p (flatBuckets p.elements)).2.groups.map Chunk.groupData ++
          (if p.releases.isEmpty then []
           else Chunk.releaseHeader :: p.releases.map Chunk.releaseData) ++
          [Chunk.endPart] := rfl
    rw [hform]
    have hnodes : (p.nodes.map Chunk.nodeLine).countP isElemHeader = 0 := by
      rw [List.countP_map]
      exact List.countP_eq_zero.mpr (fun n _ => by simp [Function.comp, isElemHeader])
    have hgroups : ((emitBuckets p (flatBuckets p.elements)).2.groups.map
        Chunk.groupData).countP isElemHeader = 0 := by
      rw [List.countP_map]
      exact List.countP_eq_zero.mpr (fun g _ => by simp [Function.comp, isElemHeader])
    have hrel : ((if p.releases.isEmpty then []
        else Chunk.releaseHeader :: p.releases.map Chunk.releaseData) :
          List Chunk).countP isElemHeader = 0 := by
      split
      · rfl
      · rw [List.countP_cons, List.countP_map]
        have hz : (p.releases.countP (isElemHeader ∘ Chunk.releaseData)) = 0 :=
          List.countP_eq_zero.mpr (fun r _ => by simp [Function.comp, isElemHeader])
        rw [hz]
        rfl
    simp only [List.countP_cons, List.countP_append, hnodes, hgroups, hrel,
      emitBuckets_header_count (flatBuckets p.elements) p]
    simp [isElemHeader]

theorem c5_grouping_partition_witness :
    groupElementsR [aMassR] = .error (.attributeError "_eltype") ∧
    groupElementsR [aTrussR] = .error .typeError ∧
    groupElementsR [aShellR] = .ok (groupElements ([aShellR].map projR)) ∧
    ((flatBuckets [aElemA]).flatMap (fun b => b.2.2.2)).Perm [aElemA] :=
  ⟨c5_grouping_partition.1 [aMassR] ⟨aMassR, List.mem_singleton.mpr rfl, rfl⟩,
   c5_grouping_partition.2.1 [aTrussR] (by decide)
     ⟨aTrussR, List.mem_singleton.mpr rfl, rfl⟩,
   c5_grouping_partition.2.2.1 [aShellR] (by decide) (by decide),
   (c5_grouping_partition.2.2.2 [aElemA] aPartDemo).1⟩
